import Mathlib

/-!
Verification development for the MirageGen streaming avatar pipeline.

The embedding covers the three core components the specification singles
out, each translated from the Python source:

* `TextChunker` (src/avatar/llm/text_chunker.py): the chunk segmentation
  state machine over an incoming token stream.
* `AvatarPipeline` (src/avatar/pipeline/avatar_pipeline.py): input
  validation, the per-chunk stage coordination (synthesis, lipsync,
  sentiment, motion) and the frame timeline.
* `StreamingManager` (src/avatar/pipeline/streaming_manager.py): the
  observer broadcast layer.

Python strings are modelled as `List Char`; Python floats are modelled
as exact rationals (`Rat`), so float rounding is outside the model;
Python `bytes` values are opaque byte lists (`List Nat`).  Raising
functions are modelled with `Except` or `Option`; external capabilities
(language generation, synthesis, lipsync, sentiment, motion) are
parameters of the pipeline model, as the spec treats them as external
collaborators.
-/

/-! ## Python string primitives (shared by the chunker and the pipeline) -/

/-- Python `str.lstrip()`: drop leading whitespace. -/
def pyLStrip (s : List Char) : List Char :=
  s.dropWhile Char.isWhitespace

/-- Python `str.rstrip()`: drop trailing whitespace. -/
def pyRStrip (s : List Char) : List Char :=
  (s.reverse.dropWhile Char.isWhitespace).reverse

/-- Python `str.strip()`: drop leading and trailing whitespace. -/
def pyStrip (s : List Char) : List Char :=
  pyRStrip (pyLStrip s)

/-- Python `str.split()` with no separator: split on whitespace runs,
dropping empty fields. -/
def pySplit (s : List Char) : List (List Char) :=
  (s.splitOnP Char.isWhitespace).filter (fun w => w ≠ [])

/-- Number of whitespace-separated words, Python `len(s.split())`. -/
def wordCount (s : List Char) : Nat :=
  (pySplit s).length

/-- Python `" ".join(ws)`. -/
def joinSpace (ws : List (List Char)) : List Char :=
  List.intercalate [' '] ws

/-- First index whose character belongs to `set` (the model of
`re.search(r'[...]', s)`; the match ends one past the index). -/
def findIdxIn (set : List Char) : List Char → Option Nat
  | [] => none
  | c :: rest =>
    if c ∈ set then some 0 else (findIdxIn set rest).map (· + 1)

/-- Index of the last space character, Python `s.rfind(' ')`
(`none` for -1). -/
def rfindSpace : List Char → Option Nat
  | [] => none
  | c :: rest =>
    match rfindSpace rest with
    | some i => some (i + 1)
    | none => if c = ' ' then some 0 else none

/-- First index where `needle` occurs as a contiguous substring,
Python `s.find(needle)` (`none` for -1). -/
def findSub (needle : List Char) : List Char → Option Nat
  | [] => if needle = [] then some 0 else none
  | c :: rest =>
    if needle = (c :: rest).take needle.length then some 0
    else (findSub needle rest).map (· + 1)

/-- The subsequence of non-whitespace characters: the text a segmentation
step must neither lose nor duplicate. -/
def nonWS (s : List Char) : List Char :=
  s.filter (fun ch => !ch.isWhitespace)

/-- Whitespace normalization: the words of `s` joined by single spaces. -/
def normalizeWS (s : List Char) : List Char :=
  joinSpace (pySplit s)

/-! ## TextChunker (src/avatar/llm/text_chunker.py) -/

namespace TextChunker

/-- The chunker's `mode` argument, `Literal["words", "punctuation", "hybrid"]`. -/
inductive Mode where
  | words
  | punctuation
  | hybrid
deriving DecidableEq, Repr

/-- Model of `SENTENCE_TERMINATORS = r'[.!?…]'`. -/
def SENTENCE_TERMINATORS : List Char := ['.', '!', '?', '…']

/-- Model of `CLAUSE_SEPARATORS = r'[,;:—–]'`. -/
def CLAUSE_SEPARATORS : List Char := [',', ';', ':', '—', '–']

/-- The punctuation characters of `'.,!?;:—–…'` used by
`_extract_complete_words`. -/
def WORD_END_PUNCT : List Char := ['.', ',', '!', '?', ';', ':', '—', '–', '…']

end TextChunker

/-- Mutable state of a `TextChunker` instance (the `total_chunks_yielded`
debug counter is not modelled). -/
structure TextChunker where
  mode : TextChunker.Mode
  max_words : Nat
  min_words : Nat
  buffer : List Char
deriving DecidableEq, Repr

namespace TextChunker

/-- Model of `TextChunker._extract_complete_words(text, max_pos)`: cut `text` at
`max_pos`, backing off to the last space when the cut does not land on
whitespace or punctuation; returns the stripped chunk and the cut
position in the buffer (the pair `("", 0)` models the no-spaces case). -/
def extract_complete_words (text : List Char) (max_pos : Nat) :
    List Char × Nat :=
  if text.length ≤ max_pos then
    (pyStrip text, text.length)
  else
    let chunk := text.take max_pos
    match chunk.getLast? with
    | none => ([], 0)
    | some last =>
      if last.isWhitespace || WORD_END_PUNCT.contains last then
        (pyStrip chunk, max_pos)
      else
        match rfindSpace chunk with
        | none => ([], 0)
        | some i => (pyStrip (text.take i), i)

/-- Common cut step of the punctuation branches: take the buffer up to and
including index `i`, strip it, and emit it when it meets `min_words`
(retaining the left-stripped remainder). -/
def cutAfterIdx (c : TextChunker) (i : Nat) :
    Option (List Char × TextChunker) :=
  let chunk := pyStrip (c.buffer.take (i + 1))
  if c.min_words ≤ wordCount chunk then
    some (chunk, { c with buffer := pyLStrip (c.buffer.drop (i + 1)) })
  else
    none

/-- Model of `TextChunker._extract_by_words`. -/
def extract_by_words (c : TextChunker) : Option (List Char × TextChunker) :=
  let words := pySplit (pyStrip c.buffer)
  if c.max_words ≤ words.length then
    let target := joinSpace (words.take c.max_words)
    match findSub target c.buffer with
    | none => none
    | some pos =>
      let end_pos := pos + target.length
      let r := extract_complete_words c.buffer end_pos
      if r.1 ≠ [] ∧ c.min_words ≤ wordCount r.1 then
        some (r.1, { c with buffer := pyLStrip (c.buffer.drop r.2) })
      else
        none
  else
    none

/-- Clause-separator fallback of `_extract_by_punctuation`: attempted only
once the buffer holds at least `min_words + 2` words. -/
def extract_by_punctuation_clause (c : TextChunker) :
    Option (List Char × TextChunker) :=
  let words := pySplit (pyStrip c.buffer)
  if c.min_words + 2 ≤ words.length then
    match findIdxIn CLAUSE_SEPARATORS c.buffer with
    | some i => cutAfterIdx c i
    | none => none
  else
    none

/-- Model of `TextChunker._extract_by_punctuation`. -/
def extract_by_punctuation (c : TextChunker) :
    Option (List Char × TextChunker) :=
  match findIdxIn SENTENCE_TERMINATORS c.buffer with
  | some i =>
    match cutAfterIdx c i with
    | some r => some r
    | none => extract_by_punctuation_clause c
  | none => extract_by_punctuation_clause c

/-- Step 3 of `_extract_hybrid`: locate the start of the word after the
`max_words`-th one (`pos` in the Python loop; 0 when the loop never
breaks). -/
def findWordStartAux (maxw : Nat) :
    List Char → Nat → Option Char → Nat → Nat
  | [], _, _, _ => 0
  | ch :: rest, i, prev, count =>
    if ch.isWhitespace then
      findWordStartAux maxw rest (i + 1) (some ch) count
    else if i = 0 || (prev.map Char.isWhitespace).getD false then
      if maxw < count + 1 then i
      else findWordStartAux maxw rest (i + 1) (some ch) (count + 1)
    else
      findWordStartAux maxw rest (i + 1) (some ch) count

/-- Position of the first character of the word following the
`max_words`-th word of `buffer` (0 when there is none). -/
def findWordStartPos (buffer : List Char) (maxw : Nat) : Nat :=
  findWordStartAux maxw buffer 0 none 0

/-- Word-count step (step 3) of `_extract_hybrid`. -/
def extract_hybrid_by_words (c : TextChunker)
    (words : List (List Char)) : Option (List Char × TextChunker) :=
  if c.max_words ≤ words.length then
    let pos := findWordStartPos c.buffer c.max_words
    if 0 < pos then
      let r := extract_complete_words c.buffer pos
      if r.1 ≠ [] ∧ c.min_words ≤ wordCount r.1 then
        some (r.1, { c with buffer := pyLStrip (c.buffer.drop r.2) })
      else
        none
    else
      none
  else
    none

/-- Steps 2 and 3 of `_extract_hybrid` (reached when step 1 did not emit). -/
def extract_hybrid_fallback (c : TextChunker) :
    Option (List Char × TextChunker) :=
  let words := pySplit (pyStrip c.buffer)
  let step2 :=
    if c.max_words - 2 ≤ words.length then
      match findIdxIn CLAUSE_SEPARATORS c.buffer with
      | some i => cutAfterIdx c i
      | none => none
    else
      none
  match step2 with
  | some r => some r
  | none => extract_hybrid_by_words c words

/-- Model of `TextChunker._extract_hybrid`. -/
def extract_hybrid (c : TextChunker) : Option (List Char × TextChunker) :=
  match findIdxIn SENTENCE_TERMINATORS c.buffer with
  | some i =>
    match cutAfterIdx c i with
    | some r => some r
    | none => extract_hybrid_fallback c
  | none => extract_hybrid_fallback c

/-- Model of `TextChunker._try_extract_chunk`: `none` models Python returning `None`
with the buffer untouched. -/
def try_extract_chunk (c : TextChunker) : Option (List Char × TextChunker) :=
  match c.mode with
  | .words => extract_by_words c
  | .punctuation => extract_by_punctuation c
  | .hybrid => extract_hybrid c

/-- The token loop of `TextChunker.process_stream`: append each token to
the buffer and yield at most one extracted chunk per token; returns the
yielded chunks and the final chunker state (before the flush). -/
def feedAll : TextChunker → List (List Char) → List (List Char) × TextChunker
  | c, [] => ([], c)
  | c, t :: ts =>
    let c1 := { c with buffer := c.buffer ++ t }
    match try_extract_chunk c1 with
    | some (chunk, c2) =>
      if chunk = [] then feedAll c2 ts
      else
        let r := feedAll c2 ts
        (chunk :: r.1, r.2)
    | none => feedAll c1 ts

/-- Model of `TextChunker.process_stream` on a finite token stream: the per-token
loop followed by the final flush of the stripped buffer (yielded exactly
when non-empty). -/
def process_stream (c : TextChunker) (tokens : List (List Char)) :
    List (List Char) :=
  let r := feedAll c tokens
  let final_chunk := pyStrip r.2.buffer
  if final_chunk = [] then r.1 else r.1 ++ [final_chunk]

/-- Admissible cut positions: a chunk extraction always cuts the buffer at
its end, at a whitespace character, or immediately after a whitespace or
punctuation character. -/
def cutOk (buf : List Char) (p : Nat) : Prop :=
  p = buf.length ∨
  (∃ ch, buf[p]? = some ch ∧ ch.isWhitespace = true) ∨
  (0 < p ∧ ∃ ch, buf[p - 1]? = some ch ∧
    (ch.isWhitespace = true ∨ ch ∈ WORD_END_PUNCT))

/-- Everything a successful extraction step guarantees: configuration
fields are preserved, the chunk meets `min_words`, and chunk/remainder
arise from stripping the two halves of the buffer cut at an admissible
position `p`. -/
def extractSpec (c : TextChunker) (chunk : List Char) (c' : TextChunker) :
    Prop :=
  c'.mode = c.mode ∧ c'.max_words = c.max_words ∧
  c'.min_words = c.min_words ∧ c.min_words ≤ wordCount chunk ∧
  ∃ p, p ≤ c.buffer.length ∧ chunk = pyStrip (c.buffer.take p) ∧
    c'.buffer = pyLStrip (c.buffer.drop p) ∧ cutOk c.buffer p

end TextChunker

/-! ## Data model (src/avatar/schemas) -/

/-- Python `str.lower()` (the shallow model uses `Char.toLower`, the
basic-latin fragment of Python lowercasing). -/
def pyLower (s : List Char) : List Char :=
  s.map Char.toLower

/-- Model of `Message` of src/avatar/schemas/llm_types.py. -/
structure Message where
  role : List Char
  content : List Char
deriving DecidableEq, Repr

/-- Model of `AudioSegment` of src/avatar/schemas/audio_types.py (`duration` is a
float with validator `ge=0.0`; floats are modelled as rationals). -/
structure AudioSegment where
  audio_bytes : List Nat
  sample_rate : Nat
  format : List Char
  duration : Rat
deriving DecidableEq, Repr

/-- Model of `BlendshapeFrame` of src/avatar/schemas/animation_types.py
(dicts are modelled as association lists). -/
structure BlendshapeFrame where
  timestamp : Rat
  mouth_shapes : List (List Char × Rat)
deriving DecidableEq, Repr

/-- Model of `BlendshapeWeights` of src/avatar/schemas/animation_types.py. -/
structure BlendshapeWeights where
  frames : List BlendshapeFrame
  fps : Nat
  duration : Rat
deriving DecidableEq, Repr

/-- Model of `MotionKeyframe` of src/avatar/schemas/animation_types.py. -/
structure MotionKeyframe where
  timestamp : Rat
  bone_rotations : List (List Char × (Rat × Rat × Rat × Rat))
  bone_positions : List (List Char × (Rat × Rat × Rat))
deriving DecidableEq, Repr

/-- Model of `MotionKeyframes` of src/avatar/schemas/animation_types.py. -/
structure MotionKeyframes where
  keyframes : List MotionKeyframe
  emotion : List Char
  duration : Rat
deriving DecidableEq, Repr

/-- Model of `AvatarFrame` of src/avatar/schemas/api_types.py. -/
structure AvatarFrame where
  timestamp : Rat
  text_chunk : Option (List Char)
  audio_chunk : Option (List Nat)
  blendshapes : Option (List (List Char × Rat))
  motion : Option (List (List Char × (Rat × Rat × Rat × Rat)))
deriving DecidableEq, Repr

/-- The Python exceptions the pipeline's `process` can surface:
`ValueError` from input validation, and `RuntimeError(msg) from cause`
wrapping an essential-stage failure. -/
inductive PyErr where
  | valueError (msg : List Char)
  | runtimeError (msg : List Char) (cause : List Char)
deriving DecidableEq, Repr

/-! ## AvatarPipeline (src/avatar/pipeline/avatar_pipeline.py) -/

namespace AvatarPipeline

/-- A value the duck-typed sentiment probing of `_detect_emotion` can
receive from one analyzer method: the call raises, returns a string, or
returns an object whose `label`/`emotion` attributes are the given
optional strings (`none` models a missing or non-string attribute). -/
inductive SentimentResult where
  | raises
  | strResult (s : List Char)
  | objResult (label : Option (List Char)) (emotion : Option (List Char))
deriving DecidableEq, Repr

/-- The external capabilities the pipeline consumes, as the spec's
abstract contracts: raising calls are `Except.error`.  The lipsync
capability is handed the synthesized segment directly (the Python code
round-trips it through a scoped temp file).  The sentiment analyzer is
the ordered list of its probed methods (`analyze`, `predict`,
`predict_emotion`, `__call__`), each mapping the chunk text to what the
call produces. -/
structure Capabilities where
  generate_stream : List Message → Rat → Nat → List (List Char)
  synthesize : List Char → Except (List Char) AudioSegment
  generate_blendshapes : AudioSegment → Except (List Char) BlendshapeWeights
  get_phoneme_mapping : List Char → Option (List Char)
  sentiment_methods : List (List Char → SentimentResult)
  generate_motion : List Char → Rat → Except (List Char) MotionKeyframes

/-- Extraction of a `label`/`emotion` attribute value in `_detect_emotion`:
accepted when it is a string whose strip is non-empty, producing
`val.strip().lower()`. -/
def attrEmotion : Option (List Char) → Option (List Char)
  | some val => if pyStrip val ≠ [] then some (pyLower (pyStrip val)) else none
  | none => none

/-- The method-probing loop of `AvatarPipeline._detect_emotion` over the
results of the analyzer's methods: a raising method aborts the whole
probe to the `"neutral"` fallback; a string result returns
`result.strip().lower()`; an object result returns the first accepted
`label`/`emotion` attribute, else the loop continues; an exhausted loop
falls back to `"neutral"`. -/
def detect_emotion_loop : List SentimentResult → List Char
  | [] => "neutral".data
  | .raises :: _ => "neutral".data
  | .strResult s :: _ => pyLower (pyStrip s)
  | .objResult label emotion :: rest =>
    match attrEmotion label with
    | some v => v
    | none =>
      match attrEmotion emotion with
      | some v => v
      | none => detect_emotion_loop rest

/-- Model of `AvatarPipeline._detect_emotion`. -/
def detect_emotion (caps : Capabilities) (text : List Char) : List Char :=
  detect_emotion_loop (caps.sentiment_methods.map (fun m => m text))

/-- Model of `AvatarPipeline._process_lipsync`: absorbs every lipsync failure into
an empty mapping; otherwise maps the first frame's mouth shapes through
the phoneme→viseme mapping (falling back to the original phoneme). -/
def process_lipsync (caps : Capabilities) (audio_segment : AudioSegment) :
    List (List Char × Rat) :=
  match caps.generate_blendshapes audio_segment with
  | .error _ => []
  | .ok blendshape_weights =>
    match blendshape_weights.frames with
    | [] => []
    | first_frame :: _ =>
      first_frame.mouth_shapes.map
        (fun pw => ((caps.get_phoneme_mapping pw.1).getD pw.1, pw.2))

/-- Model of `AvatarPipeline._process_motion`: absorbs every motion failure into an
empty mapping; otherwise the first keyframe's bone rotations. -/
def process_motion (caps : Capabilities) (emotion : List Char)
    (duration : Rat) : List (List Char × (Rat × Rat × Rat × Rat)) :=
  match caps.generate_motion emotion duration with
  | .error _ => []
  | .ok motion_keyframes =>
    match motion_keyframes.keyframes with
    | [] => []
    | first_keyframe :: _ => first_keyframe.bone_rotations

/-- The per-chunk loop of `AvatarPipeline.process`: for each chunk run
synthesis (essential: a failure aborts the stream wrapped as
`RuntimeError("Pipeline error: ...") from e`), then the best-effort
lipsync/sentiment/motion stages, emit the frame at the running timeline
position and advance it by the chunk's audio duration.  Returns the
yielded frames and the terminal error, if any. -/
def process_chunks (caps : Capabilities) :
    List (List Char) → Rat → List AvatarFrame × Option PyErr
  | [], _ => ([], none)
  | text_chunk :: rest, timeline_ts =>
    match caps.synthesize text_chunk with
    | .error e =>
      ([], some (.runtimeError ("Pipeline error: ".data ++ e) e))
    | .ok audio_segment =>
      let blendshapes_dict := process_lipsync caps audio_segment
      let emotion := detect_emotion caps text_chunk
      let motion_dict := process_motion caps emotion audio_segment.duration
      let frame : AvatarFrame :=
        { timestamp := timeline_ts
          text_chunk := some text_chunk
          audio_chunk := some audio_segment.audio_bytes
          blendshapes := if blendshapes_dict = [] then none
                         else some blendshapes_dict
          motion := if motion_dict = [] then none else some motion_dict }
      let r := process_chunks caps rest (timeline_ts + audio_segment.duration)
      (frame :: r.1, r.2)

/-- Model of `AvatarPipeline._process_llm_stream`: tokens from the language
capability (temperature 0.7, max 512 tokens) fed through a fresh hybrid
chunker with `max_words=10`, `min_words=4`. -/
def pipeline_chunks (caps : Capabilities) (messages : List Message) :
    List (List Char) :=
  TextChunker.process_stream ⟨.hybrid, 10, 4, []⟩
    (caps.generate_stream messages (7 / 10) 512)

/-- Model of `AvatarPipeline.process`: validation (empty/whitespace-only input and
the 2000-character cap) before any capability call, then the chunk loop
starting at timeline position 0.0.  The Python length-error message
interpolates the length; the model keeps a fixed message text.
`conversation_history = None` is modelled by the empty list. -/
def process (caps : Capabilities) (user_input : List Char)
    (conversation_history : List Message) : List AvatarFrame × Option PyErr :=
  if user_input = [] ∨ pyStrip user_input = [] then
    ([], some (.valueError "user_input cannot be empty".data))
  else if 2000 < user_input.length then
    ([], some (.valueError "user_input too long".data))
  else
    let messages := conversation_history ++ [⟨"user".data, user_input⟩]
    process_chunks caps (pipeline_chunks caps messages) 0

/-- The duration `process` reads off the synthesized segment of a chunk
(0 when synthesis fails there; used only to state timeline theorems). -/
def ttsDuration (caps : Capabilities) (text_chunk : List Char) : Rat :=
  match caps.synthesize text_chunk with
  | .ok audio_segment => audio_segment.duration
  | .error _ => 0

/-- The candidate strings a sentiment probe can turn into an emotion
label: string results and string-valued `label`/`emotion` attribute
values, in probe order. -/
def sentimentStrings : List SentimentResult → List (List Char)
  | [] => []
  | .raises :: rest => sentimentStrings rest
  | .strResult s :: rest => s :: sentimentStrings rest
  | .objResult label emotion :: rest =>
    label.toList ++ emotion.toList ++ sentimentStrings rest

/-- Concrete capabilities for the claim witnesses: the language stage
streams one fixed token (which the hybrid chunker splits into two
chunks), synthesis always succeeds with a 1-second segment, lipsync and
motion always raise, and the analyzer's one method returns a padded
mixed-case string. -/
def demoCaps : Capabilities where
  generate_stream := fun _ _ _ => ["aa bb cc dd. ee ff gg hh.".data]
  synthesize := fun _ =>
    .ok { audio_bytes := [0], sample_rate := 24000,
          format := "wav".data, duration := 1 }
  generate_blendshapes := fun _ => .error "rhubarb unavailable".data
  get_phoneme_mapping := fun _ => none
  sentiment_methods := [fun _ => .strResult "  Happy ".data]
  generate_motion := fun _ _ => .error "missing preset".data

/-- Like `demoCaps`, but synthesis raises on the second chunk the fixed
token stream produces. -/
def demoCapsFail : Capabilities where
  generate_stream := fun _ _ _ => ["aa bb cc dd. ee ff gg hh.".data]
  synthesize := fun ch =>
    if ch = "ee ff gg hh.".data then .error "boom".data
    else .ok { audio_bytes := [0], sample_rate := 24000,
               format := "wav".data, duration := 1 }
  generate_blendshapes := fun _ => .error "rhubarb unavailable".data
  get_phoneme_mapping := fun _ => none
  sentiment_methods := []
  generate_motion := fun _ _ => .error "missing preset".data

end AvatarPipeline

/-- A concrete frame used by the broadcast witnesses. -/
def demoFrame : AvatarFrame :=
  { timestamp := 0, text_chunk := none, audio_chunk := none,
    blendshapes := none, motion := none }

/-- A concrete observer-failure pattern: the observer named 2 raises on
every frame. -/
def demoRaises : Nat → AvatarFrame → Bool :=
  fun o _ => o == 2

/-- Cumulative timeline positions: `runningSums t [d1, d2, ...] =
[t, t + d1, t + d1 + d2, ...]` (one entry per duration). -/
def runningSums (t : Rat) : List Rat → List Rat
  | [] => []
  | d :: ds => t :: runningSums (t + d) ds

/-! ## StreamingManager (src/avatar/pipeline/streaming_manager.py) -/

/-- Model of `StreamingManager`: the `_observers` list.  Observers are drawn from
an arbitrary type with decidable equality (Python compares callbacks
with `in`/`remove`). -/
structure StreamingManager (α : Type) where
  observers : List α
deriving DecidableEq, Repr

namespace StreamingManager

/-- Model of `StreamingManager.subscribe`: append when absent. -/
def subscribe [DecidableEq α] (m : StreamingManager α) (observer : α) :
    StreamingManager α :=
  if observer ∈ m.observers then m
  else { observers := m.observers ++ [observer] }

/-- Model of `StreamingManager.unsubscribe`: remove the first occurrence when
present. -/
def unsubscribe [DecidableEq α] (m : StreamingManager α) (observer : α) :
    StreamingManager α :=
  if observer ∈ m.observers then { observers := m.observers.erase observer }
  else m

/-- The delivery loop of `broadcast` over the snapshot taken at the start
of the call.  `raises o frame = true` models the observer's callback
raising on this frame; such an observer is unsubscribed from the live
list and iteration continues.  Returns the final manager and the
invocation trace: each snapshot observer paired with whether its
delivery completed without raising. -/
def broadcastLoop [DecidableEq α] (raises : α → AvatarFrame → Bool)
    (frame : AvatarFrame) :
    List α → StreamingManager α → StreamingManager α × List (α × Bool)
  | [], m => (m, [])
  | observer :: rest, m =>
    if raises observer frame then
      let r := broadcastLoop raises frame rest (unsubscribe m observer)
      (r.1, (observer, false) :: r.2)
    else
      let r := broadcastLoop raises frame rest m
      (r.1, (observer, true) :: r.2)

/-- Model of `StreamingManager.broadcast`: early return on an empty observer list,
else iterate over `list(self._observers)` (the snapshot). -/
def broadcast [DecidableEq α] (raises : α → AvatarFrame → Bool)
    (m : StreamingManager α) (frame : AvatarFrame) :
    StreamingManager α × List (α × Bool) :=
  if m.observers = [] then (m, [])
  else broadcastLoop raises frame m.observers m

/-- Model of `StreamingManager.get_observer_count`. -/
def get_observer_count (m : StreamingManager α) : Nat :=
  m.observers.length

end StreamingManager

/-! ## Character-level lemmas -/

theorem uint32_le_iff_toNat_le {a b : UInt32} : a ≤ b ↔ a.toNat ≤ b.toNat := by
  rw [UInt32.le_def, BitVec.le_def]
  exact Iff.rfl

theorem char_isUpper_iff (c : Char) :
    c.isUpper = true ↔ 65 ≤ c.toNat ∧ c.toNat ≤ 90 := by
  have h65 : (65 : UInt32).toNat = 65 := rfl
  have h90 : (90 : UInt32).toNat = 90 := rfl
  rw [Char.isUpper, Bool.and_eq_true, decide_eq_true_eq, decide_eq_true_eq,
    ge_iff_le, uint32_le_iff_toNat_le, uint32_le_iff_toNat_le, h65, h90]
  exact Iff.rfl

theorem char_toNat_ofNat_valid (n : Nat) (h : n < 55296) :
    (Char.ofNat n).toNat = n := by
  rw [Char.ofNat, dif_pos (Or.inl h : Nat.isValidChar n)]
  rfl

theorem char_toLower_isUpper (c : Char) : c.toLower.isUpper = false := by
  rw [Char.toLower]
  split
  next h =>
    rw [Bool.eq_false_iff]
    intro hu
    rw [char_isUpper_iff] at hu
    rw [char_toNat_ofNat_valid (c.toNat + 32) (by omega)] at hu
    omega
  next h =>
    rw [Bool.eq_false_iff]
    intro hu
    rw [char_isUpper_iff] at hu
    exact h (by omega)

theorem char_eq_iff_toNat {c d : Char} : c = d ↔ c.toNat = d.toNat := by
  constructor
  · intro h
    rw [h]
  · intro h
    exact Char.ext (UInt32.toNat.inj h)

theorem char_isWhitespace_iff (c : Char) :
    c.isWhitespace = true ↔
      c.toNat = 32 ∨ c.toNat = 9 ∨ c.toNat = 13 ∨ c.toNat = 10 := by
  have hs : (' ' : Char).toNat = 32 := rfl
  have ht : ('\t' : Char).toNat = 9 := rfl
  have hr : ('\r' : Char).toNat = 13 := rfl
  have hn : ('\n' : Char).toNat = 10 := rfl
  rw [Char.isWhitespace]
  simp only [Bool.or_eq_true, decide_eq_true_eq]
  rw [char_eq_iff_toNat, char_eq_iff_toNat, char_eq_iff_toNat,
    char_eq_iff_toNat, hs, ht, hr, hn]
  tauto

theorem char_toLower_isWhitespace (c : Char) :
    c.toLower.isWhitespace = c.isWhitespace := by
  rw [Char.toLower]
  split
  next h =>
    have hv : (Char.ofNat (c.toNat + 32)).toNat = c.toNat + 32 :=
      char_toNat_ofNat_valid _ (by omega)
    have h1 : (Char.ofNat (c.toNat + 32)).isWhitespace = false := by
      rw [Bool.eq_false_iff]
      intro hw
      rw [char_isWhitespace_iff, hv] at hw
      omega
    have h2 : c.isWhitespace = false := by
      rw [Bool.eq_false_iff]
      intro hw
      rw [char_isWhitespace_iff] at hw
      omega
    rw [h1, h2]
  next h => rfl

/-! ## Non-whitespace content of a string -/

theorem nonWS_append (a b : List Char) : nonWS (a ++ b) = nonWS a ++ nonWS b :=
  List.filter_append a b

theorem nonWS_pyLStrip (s : List Char) : nonWS (pyLStrip s) = nonWS s := by
  induction s with
  | nil => rfl
  | cons c t ih =>
    rw [pyLStrip, List.dropWhile_cons]
    by_cases h : c.isWhitespace = true
    · rw [if_pos h]
      rw [pyLStrip] at ih
      rw [ih]
      simp [nonWS, List.filter_cons, h]
    · rw [if_neg h]

theorem nonWS_reverse (s : List Char) : nonWS s.reverse = (nonWS s).reverse :=
  List.filter_reverse _ s

theorem nonWS_pyRStrip (s : List Char) : nonWS (pyRStrip s) = nonWS s := by
  rw [pyRStrip, nonWS_reverse]
  have h : nonWS (List.dropWhile Char.isWhitespace s.reverse) =
      nonWS s.reverse := nonWS_pyLStrip s.reverse
  rw [h, nonWS_reverse, List.reverse_reverse]

theorem nonWS_pyStrip (s : List Char) : nonWS (pyStrip s) = nonWS s := by
  rw [pyStrip, nonWS_pyRStrip, nonWS_pyLStrip]

theorem pyStrip_eq_nil_iff (s : List Char) : pyStrip s = [] ↔ nonWS s = [] := by
  constructor
  · intro h
    rw [← nonWS_pyStrip, h]
    rfl
  · intro h
    have hall : ∀ ch ∈ s, ch.isWhitespace = true := by
      intro ch hch
      by_contra hcw
      have : ch ∈ nonWS s := List.mem_filter.mpr ⟨hch, by simp [hcw]⟩
      rw [h] at this
      exact absurd this (List.not_mem_nil ch)
    have hl : pyLStrip s = [] := by
      rw [pyLStrip, List.dropWhile_eq_nil_iff]
      exact hall
    rw [pyStrip, hl]
    rfl

/-! ## Cut-point specification of the chunker's extraction step -/

namespace TextChunker

theorem findIdxIn_some {set s : List Char} {i : Nat}
    (h : findIdxIn set s = some i) : ∃ ch, s[i]? = some ch ∧ ch ∈ set := by
  induction s generalizing i with
  | nil => simp [findIdxIn] at h
  | cons c t ih =>
    rw [findIdxIn] at h
    by_cases hc : c ∈ set
    · rw [if_pos hc] at h
      injection h with h
      subst h
      exact ⟨c, by simp, hc⟩
    · rw [if_neg hc] at h
      match he : findIdxIn set t with
      | none => rw [he] at h; simp at h
      | some j =>
        rw [he] at h
        simp only [Option.map_some'] at h
        injection h with h
        subst h
        obtain ⟨ch, hg, hm⟩ := ih he
        exact ⟨ch, by simpa using hg, hm⟩

theorem findIdxIn_none {set s : List Char}
    (h : findIdxIn set s = none) : ∀ ch ∈ s, ch ∉ set := by
  induction s with
  | nil => intro ch hch; simp at hch
  | cons c t ih =>
    rw [findIdxIn] at h
    by_cases hc : c ∈ set
    · rw [if_pos hc] at h; simp at h
    · rw [if_neg hc] at h
      intro ch hch
      rcases List.mem_cons.mp hch with rfl | hmem
      · exact hc
      · have ht : findIdxIn set t = none := by
          match he : findIdxIn set t with
          | none => rfl
          | some j => rw [he] at h; simp at h
        exact ih ht ch hmem

theorem rfindSpace_some {s : List Char} {i : Nat}
    (h : rfindSpace s = some i) : s[i]? = some ' ' := by
  induction s generalizing i with
  | nil => simp [rfindSpace] at h
  | cons c t ih =>
    rw [rfindSpace] at h
    match he : rfindSpace t with
    | some j =>
      rw [he] at h
      injection h with h
      subst h
      simpa using ih he
    | none =>
      rw [he] at h
      by_cases hc : c = ' '
      · rw [if_pos hc] at h
        injection h with h
        subst h
        simp [hc]
      · rw [if_neg hc] at h
        simp at h

theorem extract_complete_words_spec {text : List Char} {max_pos : Nat}
    {chunk : List Char} {p : Nat}
    (h : extract_complete_words text max_pos = (chunk, p))
    (hne : chunk ≠ []) :
    chunk = pyStrip (text.take p) ∧ p ≤ text.length ∧ cutOk text p := by
  rw [extract_complete_words] at h
  by_cases hlen : text.length ≤ max_pos
  · rw [if_pos hlen] at h
    injection h with h1 h2
    subst h1
    subst h2
    exact ⟨by rw [List.take_length], Nat.le_refl _, Or.inl rfl⟩
  · rw [if_neg hlen] at h
    simp only [] at h
    match hg : (text.take max_pos).getLast? with
    | none =>
      rw [hg] at h
      dsimp only [] at h
      injection h with h1 h2
      exact absurd h1.symm hne
    | some last =>
      rw [hg] at h
      dsimp only [] at h
      have hmp : max_pos < text.length := Nat.lt_of_not_le hlen
      have hlt : (text.take max_pos).length = max_pos := by
        rw [List.length_take]
        exact Nat.min_eq_left (Nat.le_of_lt hmp)
      by_cases hcond : (last.isWhitespace || WORD_END_PUNCT.contains last) = true
      · rw [if_pos hcond] at h
        injection h with h1 h2
        subst h1
        subst h2
        have hpos : 0 < max_pos := by
          by_contra hz
          have : max_pos = 0 := Nat.eq_zero_of_not_pos hz
          subst this
          simp [List.getLast?] at hg
        refine ⟨rfl, Nat.le_of_lt hmp, Or.inr (Or.inr ⟨hpos, last, ?_, ?_⟩)⟩
        · rw [List.getLast?_eq_getElem?, hlt] at hg
          rw [← hg]
          exact (List.getElem?_take_of_lt (by omega)).symm
        · rcases Bool.or_eq_true _ _ |>.mp hcond with hw | hm
          · exact Or.inl hw
          · exact Or.inr (List.elem_iff.mp hm)
      · rw [if_neg hcond] at h
        match hf : rfindSpace (text.take max_pos) with
        | none =>
          rw [hf] at h
          injection h with h1 h2
          exact absurd h1.symm hne
        | some i =>
          rw [hf] at h
          injection h with h1 h2
          subst h1
          subst h2
          have hsp := rfindSpace_some hf
          have hib : i < max_pos := by
            obtain ⟨h1, h2⟩ := List.getElem?_eq_some_iff.mp hsp
            omega
          rw [List.getElem?_take_of_lt hib] at hsp
          refine ⟨rfl, ?_, Or.inr (Or.inl ⟨' ', hsp, by decide⟩)⟩
          omega

theorem mem_sentence_subset {ch : Char}
    (h : ch ∈ SENTENCE_TERMINATORS) : ch ∈ WORD_END_PUNCT := by
  simp only [SENTENCE_TERMINATORS, List.mem_cons, List.not_mem_nil, or_false] at h
  rcases h with rfl | rfl | rfl | rfl <;> decide

theorem mem_clause_subset {ch : Char}
    (h : ch ∈ CLAUSE_SEPARATORS) : ch ∈ WORD_END_PUNCT := by
  simp only [CLAUSE_SEPARATORS, List.mem_cons, List.not_mem_nil, or_false] at h
  rcases h with rfl | rfl | rfl | rfl | rfl <;> decide

theorem cutAfterIdx_spec {c : TextChunker} {i : Nat} {chunk : List Char}
    {c' : TextChunker} (h : cutAfterIdx c i = some (chunk, c'))
    (hch : ∃ ch, c.buffer[i]? = some ch ∧ ch ∈ WORD_END_PUNCT) :
    extractSpec c chunk c' := by
  simp only [cutAfterIdx] at h
  split at h
  case isTrue hwc =>
    injection h with h
    injection h with h1 h2
    subst h1
    subst h2
    obtain ⟨ch, hg, hm⟩ := hch
    have hlt : i < c.buffer.length := (List.getElem?_eq_some_iff.mp hg).1
    refine ⟨rfl, rfl, rfl, hwc, i + 1, by omega, rfl, rfl, ?_⟩
    exact Or.inr (Or.inr ⟨Nat.succ_pos i, ch, by simpa using hg, Or.inr hm⟩)
  case isFalse => simp at h

theorem extract_by_words_spec {c : TextChunker} {chunk : List Char}
    {c' : TextChunker} (h : extract_by_words c = some (chunk, c')) :
    extractSpec c chunk c' := by
  simp only [extract_by_words] at h
  split at h
  case isFalse => simp at h
  case isTrue hw =>
    split at h
    case h_1 => simp at h
    case h_2 pos hpos =>
      split at h
      case isFalse => simp at h
      case isTrue hcond =>
        injection h with h
        injection h with h1 h2
        subst h1
        subst h2
        obtain ⟨he, hle, hcut⟩ :=
          extract_complete_words_spec (Prod.mk.eta).symm hcond.1
        exact ⟨rfl, rfl, rfl, hcond.2, _, hle, he, rfl, hcut⟩

theorem extract_by_punctuation_clause_spec {c : TextChunker}
    {chunk : List Char} {c' : TextChunker}
    (h : extract_by_punctuation_clause c = some (chunk, c')) :
    extractSpec c chunk c' := by
  simp only [extract_by_punctuation_clause] at h
  split at h
  case isFalse => simp at h
  case isTrue hw =>
    split at h
    case h_1 i hi =>
      obtain ⟨ch, hg, hm⟩ := findIdxIn_some hi
      exact cutAfterIdx_spec h ⟨ch, hg, mem_clause_subset hm⟩
    case h_2 => simp at h

theorem extract_by_punctuation_spec {c : TextChunker} {chunk : List Char}
    {c' : TextChunker} (h : extract_by_punctuation c = some (chunk, c')) :
    extractSpec c chunk c' := by
  rw [extract_by_punctuation] at h
  split at h
  case h_1 i hi =>
    split at h
    case h_1 r hr =>
      injection h with h
      subst h
      obtain ⟨ch, hg, hm⟩ := findIdxIn_some hi
      exact cutAfterIdx_spec hr ⟨ch, hg, mem_sentence_subset hm⟩
    case h_2 => exact extract_by_punctuation_clause_spec h
  case h_2 => exact extract_by_punctuation_clause_spec h

theorem extract_hybrid_by_words_spec {c : TextChunker}
    {words : List (List Char)} {chunk : List Char} {c' : TextChunker}
    (h : extract_hybrid_by_words c words = some (chunk, c')) :
    extractSpec c chunk c' := by
  simp only [extract_hybrid_by_words] at h
  split at h
  case isFalse => simp at h
  case isTrue hw =>
    split at h
    case isFalse => simp at h
    case isTrue hpos =>
      split at h
      case isFalse => simp at h
      case isTrue hcond =>
        injection h with h
        injection h with h1 h2
        subst h1
        subst h2
        obtain ⟨he, hle, hcut⟩ :=
          extract_complete_words_spec (Prod.mk.eta).symm hcond.1
        exact ⟨rfl, rfl, rfl, hcond.2, _, hle, he, rfl, hcut⟩

theorem extract_hybrid_fallback_spec {c : TextChunker} {chunk : List Char}
    {c' : TextChunker} (h : extract_hybrid_fallback c = some (chunk, c')) :
    extractSpec c chunk c' := by
  simp only [extract_hybrid_fallback] at h
  split at h
  case h_1 r hr =>
    injection h with h
    subst h
    split at hr
    case isFalse => simp at hr
    case isTrue hw =>
      split at hr
      case h_1 i hi =>
        obtain ⟨ch, hg, hm⟩ := findIdxIn_some hi
        exact cutAfterIdx_spec hr ⟨ch, hg, mem_clause_subset hm⟩
      case h_2 => simp at hr
  case h_2 hstep2 => exact extract_hybrid_by_words_spec h

theorem extract_hybrid_spec {c : TextChunker} {chunk : List Char}
    {c' : TextChunker} (h : extract_hybrid c = some (chunk, c')) :
    extractSpec c chunk c' := by
  rw [extract_hybrid] at h
  split at h
  case h_1 i hi =>
    split at h
    case h_1 r hr =>
      injection h with h
      subst h
      obtain ⟨ch, hg, hm⟩ := findIdxIn_some hi
      exact cutAfterIdx_spec hr ⟨ch, hg, mem_sentence_subset hm⟩
    case h_2 => exact extract_hybrid_fallback_spec h
  case h_2 => exact extract_hybrid_fallback_spec h

theorem try_extract_chunk_spec {c : TextChunker} {chunk : List Char}
    {c' : TextChunker} (h : try_extract_chunk c = some (chunk, c')) :
    extractSpec c chunk c' := by
  rw [try_extract_chunk] at h
  cases hmode : c.mode
  · rw [hmode] at h
    exact extract_by_words_spec h
  · rw [hmode] at h
    exact extract_by_punctuation_spec h
  · rw [hmode] at h
    exact extract_hybrid_spec h

end TextChunker

namespace TextChunker

theorem extractSpec_nonWS {c : TextChunker} {chunk : List Char}
    {c' : TextChunker} (h : extractSpec c chunk c') :
    nonWS chunk ++ nonWS c'.buffer = nonWS c.buffer := by
  obtain ⟨-, -, -, -, p, hp, hc, hb, -⟩ := h
  rw [hc, hb, nonWS_pyStrip, nonWS_pyLStrip, ← nonWS_append,
    List.take_append_drop]

theorem feedAll_min_words (tokens : List (List Char)) (c : TextChunker) :
    ∀ chunk ∈ (feedAll c tokens).1, c.min_words ≤ wordCount chunk := by
  induction tokens generalizing c with
  | nil => intro chunk hm; simp [feedAll] at hm
  | cons t ts ih =>
    intro chunk hm
    simp only [feedAll] at hm
    split at hm
    case h_1 chunk0 c2 hx =>
      obtain ⟨-, -, hmin, hwc, -⟩ := try_extract_chunk_spec hx
      split at hm
      case isTrue => exact hmin ▸ ih c2 chunk hm
      case isFalse =>
        rcases List.mem_cons.mp hm with rfl | hm2
        · exact hwc
        · exact hmin ▸ ih c2 chunk hm2
    case h_2 => exact ih { c with buffer := c.buffer ++ t } chunk hm

theorem feedAll_nonWS (tokens : List (List Char)) (c : TextChunker) :
    nonWS (List.flatten (feedAll c tokens).1) ++ nonWS (feedAll c tokens).2.buffer
      = nonWS c.buffer ++ nonWS (List.flatten tokens) := by
  induction tokens generalizing c with
  | nil => simp [feedAll, nonWS]
  | cons t ts ih =>
    simp only [feedAll]
    split
    case h_1 chunk0 c2 hx =>
      have hstep := extractSpec_nonWS (try_extract_chunk_spec hx)
      have hbuf : nonWS chunk0 ++ nonWS c2.buffer
          = nonWS c.buffer ++ nonWS t := by
        rw [hstep]
        exact nonWS_append c.buffer t
      split
      case isTrue he =>
        subst he
        rw [ih c2]
        have h2 : nonWS c2.buffer = nonWS c.buffer ++ nonWS t := by
          simpa [nonWS] using hbuf
        rw [h2, List.flatten_cons, nonWS_append, List.append_assoc]
      case isFalse he =>
        rw [List.flatten_cons, nonWS_append, List.append_assoc, ih c2,
          ← List.append_assoc, hbuf, List.flatten_cons, nonWS_append,
          List.append_assoc]
    case h_2 =>
      rw [ih]
      show nonWS (c.buffer ++ t) ++ nonWS (List.flatten ts) = _
      rw [nonWS_append, List.flatten_cons, nonWS_append, List.append_assoc]

end TextChunker

/-! ## Claims C5 - C8: the chunk segmentation state machine -/

/-- C5: for every token stream and every mode, each chunk yielded before
the token source is exhausted has word count at least `min_words`, and
once the source is exhausted the remaining buffer content trimmed of
surrounding whitespace is yielded as one final chunk regardless of
`min_words` exactly when it is non-empty — so only the final flushed
chunk may fall below `min_words`. -/
theorem C5_min_words_invariant (c : TextChunker) (tokens : List (List Char)) :
    (∀ chunk ∈ (TextChunker.feedAll c tokens).1,
      c.min_words ≤ wordCount chunk) ∧
    TextChunker.process_stream c tokens =
      (TextChunker.feedAll c tokens).1 ++
        (if pyStrip (TextChunker.feedAll c tokens).2.buffer = [] then []
         else [pyStrip (TextChunker.feedAll c tokens).2.buffer]) := by
  refine ⟨TextChunker.feedAll_min_words tokens c, ?_⟩
  rw [TextChunker.process_stream]
  by_cases h : pyStrip (TextChunker.feedAll c tokens).2.buffer = []
  · rw [if_pos h, if_pos h, List.append_nil]
  · rw [if_neg h, if_neg h]

/-- C6 (counterexample): with the hybrid chunker over the single token
`"aa bb cc dd.ee"`, the sentence cut lands right after the `.` inside the
whitespace-delimited token `dd.ee`, so joining the yielded chunks with
single spaces gives `"aa bb cc dd. ee"`, which differs from the
whitespace-normalized input `"aa bb cc dd.ee"`. -/
theorem C6_reassembly_counterexample :
    normalizeWS (joinSpace (TextChunker.process_stream ⟨.hybrid, 10, 4, []⟩
        ["aa bb cc dd.ee".data])) ≠
      normalizeWS (List.flatten ["aa bb cc dd.ee".data]) := by decide

/-- C6 (amended): for every chunker state and token stream (hence for all
three modes), segmentation neither loses nor duplicates any
non-whitespace text: the non-whitespace character sequence of the
concatenated chunks equals that of the buffered prefix followed by the
concatenated tokens.  Reassembly with single spaces can still differ from
whitespace normalization of the input, because a punctuation cut may
split a whitespace-delimited token right after the punctuation mark. -/
theorem C6_reassembly_nonws (c : TextChunker) (tokens : List (List Char)) :
    nonWS (List.flatten (TextChunker.process_stream c tokens))
      = nonWS (c.buffer ++ List.flatten tokens) := by
  have hfa := TextChunker.feedAll_nonWS tokens c
  rw [TextChunker.process_stream, nonWS_append]
  by_cases h : pyStrip (TextChunker.feedAll c tokens).2.buffer = []
  · rw [if_pos h]
    have hb : nonWS (TextChunker.feedAll c tokens).2.buffer = [] := by
      rw [← nonWS_pyStrip, h]
      rfl
    rw [hb, List.append_nil] at hfa
    exact hfa
  · rw [if_neg h, List.flatten_append]
    have hone : List.flatten [pyStrip (TextChunker.feedAll c tokens).2.buffer]
        = pyStrip (TextChunker.feedAll c tokens).2.buffer := by
      simp
    rw [hone, nonWS_append, nonWS_pyStrip]
    exact hfa

/-- C7 (counterexample): with the hybrid chunker over the single token
`"aa bb cc dd.ee"`, the chunk `"aa bb cc dd."` is emitted, and its final
word `"dd."` is not a whitespace-delimited word of the input text — the
sentence cut after `.` split the word `dd.ee`, so an emitted chunk does
end mid-word. -/
theorem C7_word_boundary_counterexample :
    ("aa bb cc dd.".data ∈ TextChunker.process_stream ⟨.hybrid, 10, 4, []⟩
        ["aa bb cc dd.ee".data]) ∧
    (pySplit "aa bb cc dd.".data).getLast? = some "dd.".data ∧
    "dd.".data ∉ pySplit "aa bb cc dd.ee".data := by decide

/-- C7 (amended): every successful extraction cuts the buffer at an
admissible position: at the end of the buffer, at a whitespace character,
or immediately after a whitespace or punctuation character
(`.,!?;:—–…`).  A word-count cut landing mid-word backs off to the
previous whitespace, but a cut directly after a punctuation character may
split a whitespace-delimited token there. -/
theorem C7_word_boundary (c : TextChunker) (chunk : List Char)
    (c' : TextChunker)
    (h : TextChunker.try_extract_chunk c = some (chunk, c')) :
    ∃ p, p ≤ c.buffer.length ∧ chunk = pyStrip (c.buffer.take p) ∧
      c'.buffer = pyLStrip (c.buffer.drop p) ∧ TextChunker.cutOk c.buffer p := by
  obtain ⟨-, -, -, -, hp⟩ := TextChunker.try_extract_chunk_spec h
  exact hp

/-- Witness for C7: a concrete hybrid extraction exhibiting an admissible
cut position. -/
theorem C7_word_boundary_witness :
    ∃ p, p ≤ ("aa bb cc dd. ee".data : List Char).length ∧
      "aa bb cc dd.".data = pyStrip (("aa bb cc dd. ee".data : List Char).take p) ∧
      ("ee".data : List Char) = pyLStrip (("aa bb cc dd. ee".data : List Char).drop p) ∧
      TextChunker.cutOk "aa bb cc dd. ee".data p :=
  C7_word_boundary ⟨.hybrid, 10, 4, "aa bb cc dd. ee".data⟩
    "aa bb cc dd.".data ⟨.hybrid, 10, 4, "ee".data⟩ (by decide)

namespace TextChunker

theorem cutAfterIdx_eq {c : TextChunker} {i : Nat} {chunk : List Char}
    {c' : TextChunker} (h : cutAfterIdx c i = some (chunk, c')) :
    chunk = pyStrip (c.buffer.take (i + 1)) ∧
      c.min_words ≤ wordCount chunk := by
  simp only [cutAfterIdx] at h
  split at h
  case isTrue hwc =>
    injection h with h
    injection h with h1 h2
    subst h1
    exact ⟨rfl, hwc⟩
  case isFalse => simp at h

theorem findIdxIn_eq_none {set s : List Char}
    (h : ∀ ch ∈ s, ch ∉ set) : findIdxIn set s = none := by
  match he : findIdxIn set s with
  | none => rfl
  | some i =>
    obtain ⟨ch, hg, hm⟩ := findIdxIn_some he
    obtain ⟨hlt, hch⟩ := List.getElem?_eq_some_iff.mp hg
    exact absurd hm (h ch (hch ▸ List.getElem_mem hlt))

end TextChunker

/-- C8 (counterexample): in punctuation mode with `max_words = 10` and
`min_words = 4`, a buffer of 6 words — fewer than `max_words - 2 = 8` —
already gets a clause-separator cut: the code's threshold is
`min_words + 2 = 6`, not `max_words - 2`. -/
theorem C8_clause_threshold_counterexample :
    TextChunker.try_extract_chunk
        ⟨.punctuation, 10, 4, "aa bb cc dd, ee ff".data⟩
      = some ("aa bb cc dd,".data, ⟨.punctuation, 10, 4, "ee ff".data⟩) ∧
    wordCount "aa bb cc dd, ee ff".data < 10 - 2 := by decide

/-- C8 (amended): in punctuation mode, every extracted chunk comes either
from a sentence-terminator cut, or from a clause-separator cut attempted
once the buffer holds at least `min_words + 2` words (not
`max_words - 2`), in both cases only when the prefix up to and including
the punctuation mark has at least `min_words` words; and punctuation mode
never performs a word-count-based cut: a buffer with no sentence
terminator and no clause separator yields no chunk, whatever its word
count. -/
theorem C8_punctuation_mode (c : TextChunker)
    (hmode : c.mode = .punctuation) :
    (∀ chunk c', TextChunker.try_extract_chunk c = some (chunk, c') →
      (∃ i, findIdxIn TextChunker.SENTENCE_TERMINATORS c.buffer
          = some i ∧
        chunk = pyStrip (c.buffer.take (i + 1)) ∧
        c.min_words ≤ wordCount chunk) ∨
      (c.min_words + 2 ≤ (pySplit (pyStrip c.buffer)).length ∧
        ∃ i, findIdxIn TextChunker.CLAUSE_SEPARATORS c.buffer
            = some i ∧
          chunk = pyStrip (c.buffer.take (i + 1)) ∧
          c.min_words ≤ wordCount chunk)) ∧
    ((∀ ch ∈ c.buffer, ch ∉ TextChunker.SENTENCE_TERMINATORS) →
      (∀ ch ∈ c.buffer, ch ∉ TextChunker.CLAUSE_SEPARATORS) →
      TextChunker.try_extract_chunk c = none) := by
  constructor
  · intro chunk c' h
    rw [TextChunker.try_extract_chunk, hmode] at h
    dsimp only [] at h
    rw [TextChunker.extract_by_punctuation] at h
    split at h
    case h_1 i hi =>
      split at h
      case h_1 r hr =>
        injection h with h
        subst h
        obtain ⟨h1, h2⟩ := TextChunker.cutAfterIdx_eq hr
        exact Or.inl ⟨i, hi, h1, h2⟩
      case h_2 =>
        simp only [TextChunker.extract_by_punctuation_clause] at h
        split at h
        case isFalse => simp at h
        case isTrue hw =>
          split at h
          case h_1 j hj =>
            obtain ⟨h1, h2⟩ := TextChunker.cutAfterIdx_eq h
            exact Or.inr ⟨hw, j, hj, h1, h2⟩
          case h_2 => simp at h
    case h_2 =>
      simp only [TextChunker.extract_by_punctuation_clause] at h
      split at h
      case isFalse => simp at h
      case isTrue hw =>
        split at h
        case h_1 j hj =>
          obtain ⟨h1, h2⟩ := TextChunker.cutAfterIdx_eq h
          exact Or.inr ⟨hw, j, hj, h1, h2⟩
        case h_2 => simp at h
  · intro hsent hclause
    rw [TextChunker.try_extract_chunk, hmode]
    dsimp only []
    rw [TextChunker.extract_by_punctuation, TextChunker.findIdxIn_eq_none hsent]
    dsimp only []
    rw [TextChunker.extract_by_punctuation_clause,
      TextChunker.findIdxIn_eq_none hclause]
    split <;> rfl

/-- Witness for C8: the amended characterization applied to a concrete
punctuation-mode state (a clause cut at 6 buffered words). -/
theorem C8_punctuation_mode_witness :
    (∀ chunk c', TextChunker.try_extract_chunk
        ⟨.punctuation, 10, 4, "aa bb cc dd, ee ff".data⟩ = some (chunk, c') →
      (∃ i, findIdxIn TextChunker.SENTENCE_TERMINATORS
          ("aa bb cc dd, ee ff".data : List Char) = some i ∧
        chunk = pyStrip (("aa bb cc dd, ee ff".data : List Char).take (i + 1)) ∧
        4 ≤ wordCount chunk) ∨
      (4 + 2 ≤ (pySplit (pyStrip "aa bb cc dd, ee ff".data)).length ∧
        ∃ i, findIdxIn TextChunker.CLAUSE_SEPARATORS
            ("aa bb cc dd, ee ff".data : List Char) = some i ∧
          chunk = pyStrip (("aa bb cc dd, ee ff".data : List Char).take (i + 1)) ∧
          4 ≤ wordCount chunk)) ∧
    ((∀ ch ∈ ("aa bb cc dd, ee ff".data : List Char),
        ch ∉ TextChunker.SENTENCE_TERMINATORS) →
      (∀ ch ∈ ("aa bb cc dd, ee ff".data : List Char),
        ch ∉ TextChunker.CLAUSE_SEPARATORS) →
      TextChunker.try_extract_chunk
        ⟨.punctuation, 10, 4, "aa bb cc dd, ee ff".data⟩ = none) :=
  C8_punctuation_mode ⟨.punctuation, 10, 4, "aa bb cc dd, ee ff".data⟩ rfl

/-! ## Pipeline lemmas -/

namespace AvatarPipeline

theorem process_chunks_all_ok {caps : Capabilities} {chunks : List (List Char)}
    (ts : Rat) (hok : ∀ ch ∈ chunks, (caps.synthesize ch).isOk = true) :
    ((process_chunks caps chunks ts).1.map AvatarFrame.timestamp
        = runningSums ts (chunks.map (ttsDuration caps))) ∧
    (process_chunks caps chunks ts).1.length = chunks.length ∧
    (process_chunks caps chunks ts).2 = none := by
  induction chunks generalizing ts with
  | nil => exact ⟨rfl, rfl, rfl⟩
  | cons ch rest ih =>
    have hch := hok ch (List.mem_cons_self ch rest)
    cases he : caps.synthesize ch with
    | error e =>
      rw [he] at hch
      simp [Except.isOk, Except.toBool] at hch
    | ok seg =>
      have hrest : ∀ x ∈ rest, (caps.synthesize x).isOk = true :=
        fun x hx => hok x (List.mem_cons_of_mem ch hx)
      obtain ⟨ihm, ihl, ihe⟩ := ih (ts + seg.duration) hrest
      have hdur : ttsDuration caps ch = seg.duration := by
        rw [ttsDuration, he]
      simp only [process_chunks, he, List.map_cons, hdur, runningSums]
      exact ⟨by rw [ihm], by simp [ihl], ihe⟩

theorem process_chunks_abort {caps : Capabilities} {pre : List (List Char)}
    {bad : List Char} {e : List Char} (rest : List (List Char)) (ts : Rat)
    (hok : ∀ ch ∈ pre, (caps.synthesize ch).isOk = true)
    (hbad : caps.synthesize bad = .error e) :
    process_chunks caps (pre ++ bad :: rest) ts
      = ((process_chunks caps pre ts).1,
         some (.runtimeError ("Pipeline error: ".data ++ e) e)) := by
  induction pre generalizing ts with
  | nil =>
    simp only [List.nil_append, process_chunks, hbad]
  | cons p ps ih =>
    have hp := hok p (List.mem_cons_self p ps)
    cases he : caps.synthesize p with
    | error e2 =>
      rw [he] at hp
      simp [Except.isOk, Except.toBool] at hp
    | ok seg =>
      have hps : ∀ x ∈ ps, (caps.synthesize x).isOk = true :=
        fun x hx => hok x (List.mem_cons_of_mem p hx)
      rw [List.cons_append]
      simp only [process_chunks, he]
      rw [ih (ts + seg.duration) hps]

theorem process_chunks_lipsync_fail {caps : Capabilities}
    {chunks : List (List Char)} (ts : Rat)
    (hok : ∀ ch ∈ chunks, (caps.synthesize ch).isOk = true)
    (hfail : ∀ a, (caps.generate_blendshapes a).isOk = false) :
    (process_chunks caps chunks ts).2 = none ∧
    (process_chunks caps chunks ts).1.length = chunks.length ∧
    ∀ f ∈ (process_chunks caps chunks ts).1, f.blendshapes = none := by
  induction chunks generalizing ts with
  | nil => exact ⟨rfl, rfl, by intro f hf; simp [process_chunks] at hf⟩
  | cons ch rest ih =>
    have hch := hok ch (List.mem_cons_self ch rest)
    cases he : caps.synthesize ch with
    | error e =>
      rw [he] at hch
      simp [Except.isOk, Except.toBool] at hch
    | ok seg =>
      have hrest : ∀ x ∈ rest, (caps.synthesize x).isOk = true :=
        fun x hx => hok x (List.mem_cons_of_mem ch hx)
      obtain ⟨ihe, ihl, ihb⟩ := ih (ts + seg.duration) hrest
      have hbs : process_lipsync caps seg = [] := by
        rw [process_lipsync]
        cases hb : caps.generate_blendshapes seg with
        | error e2 => rfl
        | ok bw =>
          have := hfail seg
          rw [hb] at this
          simp [Except.isOk, Except.toBool] at this
      simp only [process_chunks, he]
      refine ⟨ihe, by simp [ihl], ?_⟩
      intro f hf
      rcases List.mem_cons.mp hf with rfl | hmem
      · simp only [hbs]
        rfl
      · exact ihb f hmem

theorem process_chunks_err_shape {caps : Capabilities}
    {chunks : List (List Char)} {ts : Rat} {err : PyErr}
    (h : (process_chunks caps chunks ts).2 = some err) :
    ∃ m c, err = .runtimeError m c := by
  induction chunks generalizing ts with
  | nil => simp [process_chunks] at h
  | cons ch rest ih =>
    cases he : caps.synthesize ch with
    | error e =>
      simp only [process_chunks, he] at h
      injection h with h
      exact ⟨_, _, h.symm⟩
    | ok seg =>
      simp only [process_chunks, he] at h
      exact ih h

theorem process_eq_of_valid {caps : Capabilities} {user_input : List Char}
    {history : List Message} (h1 : pyStrip user_input ≠ [])
    (h2 : user_input.length ≤ 2000) :
    process caps user_input history
      = process_chunks caps
          (pipeline_chunks caps (history ++ [⟨"user".data, user_input⟩])) 0 := by
  rw [process]
  have hne : ¬(user_input = [] ∨ pyStrip user_input = []) := by
    rintro (rfl | hh)
    · exact h1 rfl
    · exact h1 hh
  rw [if_neg hne, if_neg (by omega : ¬2000 < user_input.length)]

end AvatarPipeline

theorem runningSums_chain (t : Rat) (ds : List Rat)
    (h : ∀ d ∈ ds, 0 ≤ d) : List.Chain' (· ≤ ·) (runningSums t ds) := by
  induction ds generalizing t with
  | nil => simp [runningSums]
  | cons d ds ih =>
    cases ds with
    | nil => simp [runningSums]
    | cons d2 ds2 =>
      rw [runningSums, runningSums, List.chain'_cons]
      constructor
      · have hd : 0 ≤ d := h d (List.mem_cons_self d _)
        linarith
      · have ihh := ih (t + d) (fun x hx => h x (List.mem_cons_of_mem d hx))
        rw [runningSums] at ihh
        exact ihh

/-! ## Claims C1 - C3, C9: the stage-coordination pipeline -/

/-- C1: in a `process` invocation on valid input whose synthesis stage
succeeds on every chunk with durations `d1, ..., dn` (each nonnegative),
the i-th yielded frame's timestamp is the prefix sum `d1 + ... + d(i-1)`
(the first frame's timestamp is 0), timestamps are non-decreasing across
the stream, and the stream terminates without error. -/
theorem C1_timestamp_prefix_sums (caps : AvatarPipeline.Capabilities)
    (user_input : List Char) (history : List Message)
    (h1 : pyStrip user_input ≠ []) (h2 : user_input.length ≤ 2000)
    (hok : ∀ ch ∈ AvatarPipeline.pipeline_chunks caps
        (history ++ [⟨"user".data, user_input⟩]),
      (caps.synthesize ch).isOk = true)
    (hnn : ∀ ch ∈ AvatarPipeline.pipeline_chunks caps
        (history ++ [⟨"user".data, user_input⟩]),
      0 ≤ AvatarPipeline.ttsDuration caps ch) :
    ((AvatarPipeline.process caps user_input history).1.map
        AvatarFrame.timestamp
      = runningSums 0
          ((AvatarPipeline.pipeline_chunks caps
              (history ++ [⟨"user".data, user_input⟩])).map
            (AvatarPipeline.ttsDuration caps))) ∧
    List.Chain' (· ≤ ·)
      ((AvatarPipeline.process caps user_input history).1.map
        AvatarFrame.timestamp) ∧
    (AvatarPipeline.process caps user_input history).2 = none := by
  obtain ⟨hm, hl, he⟩ := AvatarPipeline.process_chunks_all_ok 0 hok
  rw [AvatarPipeline.process_eq_of_valid h1 h2]
  refine ⟨hm, ?_, he⟩
  rw [hm]
  refine runningSums_chain 0 _ ?_
  intro d hd
  obtain ⟨ch, hch, rfl⟩ := List.mem_map.mp hd
  exact hnn ch hch

/-- Witness for C1: the demo pipeline produces two chunks of duration 1
each, and the frame timestamps are the prefix sums 0, 1. -/
theorem C1_timestamp_prefix_sums_witness :
    ((AvatarPipeline.process AvatarPipeline.demoCaps "hi".data []).1.map
        AvatarFrame.timestamp
      = runningSums 0
          ((AvatarPipeline.pipeline_chunks AvatarPipeline.demoCaps
              ([] ++ [⟨"user".data, "hi".data⟩])).map
            (AvatarPipeline.ttsDuration AvatarPipeline.demoCaps))) ∧
    List.Chain' (· ≤ ·)
      ((AvatarPipeline.process AvatarPipeline.demoCaps "hi".data []).1.map
        AvatarFrame.timestamp) ∧
    (AvatarPipeline.process AvatarPipeline.demoCaps "hi".data []).2 = none :=
  C1_timestamp_prefix_sums AvatarPipeline.demoCaps "hi".data []
    (by decide) (by decide) (by decide) (by decide)

/-- C2: if synthesis succeeds on the chunks of `pre` and raises on the
next chunk, `process` yields exactly the frames for `pre` (the same
frames processing `pre` alone yields) and terminates with the
`RuntimeError("Pipeline error: ...")` wrapping the cause; in particular
no frame is emitted for the failing chunk. -/
theorem C2_synthesis_abort (caps : AvatarPipeline.Capabilities)
    (user_input : List Char) (history : List Message)
    (pre : List (List Char)) (bad : List Char) (rest : List (List Char))
    (e : List Char)
    (h1 : pyStrip user_input ≠ []) (h2 : user_input.length ≤ 2000)
    (hsplit : AvatarPipeline.pipeline_chunks caps
        (history ++ [⟨"user".data, user_input⟩]) = pre ++ bad :: rest)
    (hok : ∀ ch ∈ pre, (caps.synthesize ch).isOk = true)
    (hbad : caps.synthesize bad = .error e) :
    AvatarPipeline.process caps user_input history
      = ((AvatarPipeline.process_chunks caps pre 0).1,
         some (.runtimeError ("Pipeline error: ".data ++ e) e)) ∧
    (AvatarPipeline.process caps user_input history).1.length = pre.length := by
  have habort := AvatarPipeline.process_chunks_abort rest 0 hok hbad
  rw [AvatarPipeline.process_eq_of_valid h1 h2, hsplit, habort]
  obtain ⟨-, hl, -⟩ := AvatarPipeline.process_chunks_all_ok 0 hok
  exact ⟨rfl, hl⟩

/-- Witness for C2: synthesis raising on the second of two chunks yields
exactly one frame before the wrapped abort error. -/
theorem C2_synthesis_abort_witness :
    AvatarPipeline.process AvatarPipeline.demoCapsFail "hi".data []
      = ((AvatarPipeline.process_chunks AvatarPipeline.demoCapsFail
            ["aa bb cc dd.".data] 0).1,
         some (.runtimeError ("Pipeline error: ".data ++ "boom".data)
            "boom".data)) ∧
    (AvatarPipeline.process AvatarPipeline.demoCapsFail "hi".data []).1.length
      = (["aa bb cc dd.".data] : List (List Char)).length :=
  C2_synthesis_abort AvatarPipeline.demoCapsFail "hi".data []
    ["aa bb cc dd.".data] "ee ff gg hh.".data [] "boom".data
    (by decide) (by decide) (by decide) (by decide) (by rfl)

/-- C3: on valid input with synthesis succeeding on every chunk, if the
lipsync capability raises on every audio segment, `process` still yields
one frame per chunk, each with `blendshapes = none`, and terminates
without error. -/
theorem C3_lipsync_degradation (caps : AvatarPipeline.Capabilities)
    (user_input : List Char) (history : List Message)
    (h1 : pyStrip user_input ≠ []) (h2 : user_input.length ≤ 2000)
    (hok : ∀ ch ∈ AvatarPipeline.pipeline_chunks caps
        (history ++ [⟨"user".data, user_input⟩]),
      (caps.synthesize ch).isOk = true)
    (hfail : ∀ a, (caps.generate_blendshapes a).isOk = false) :
    (AvatarPipeline.process caps user_input history).2 = none ∧
    (AvatarPipeline.process caps user_input history).1.length
      = (AvatarPipeline.pipeline_chunks caps
          (history ++ [⟨"user".data, user_input⟩])).length ∧
    ∀ f ∈ (AvatarPipeline.process caps user_input history).1,
      f.blendshapes = none := by
  rw [AvatarPipeline.process_eq_of_valid h1 h2]
  exact AvatarPipeline.process_chunks_lipsync_fail 0 hok hfail

/-- Witness for C3: the demo lipsync capability raises on every segment
and the two frames still stream out with `blendshapes = none`. -/
theorem C3_lipsync_degradation_witness :
    (AvatarPipeline.process AvatarPipeline.demoCaps "hi".data []).2 = none ∧
    (AvatarPipeline.process AvatarPipeline.demoCaps "hi".data []).1.length
      = (AvatarPipeline.pipeline_chunks AvatarPipeline.demoCaps
          ([] ++ [⟨"user".data, "hi".data⟩])).length ∧
    ∀ f ∈ (AvatarPipeline.process AvatarPipeline.demoCaps "hi".data []).1,
      f.blendshapes = none :=
  C3_lipsync_degradation AvatarPipeline.demoCaps "hi".data []
    (by decide) (by decide) (by decide) (fun a => rfl)

/-- C9: `process` surfaces a `ValueError` (and yields nothing) exactly
when the input strips to empty or exceeds 2000 characters; the check is
made before any capability or the history is consulted (the result is
then independent of both), and validation failure is never wrapped as
the pipeline-abort `RuntimeError`.  In particular an input of exactly
2000 characters passes validation. -/
theorem C9_input_validation (caps caps2 : AvatarPipeline.Capabilities)
    (user_input : List Char) (history history2 : List Message) :
    ((∃ msg, AvatarPipeline.process caps user_input history
        = ([], some (.valueError msg))) ↔
      (pyStrip user_input = [] ∨ 2000 < user_input.length)) ∧
    ((pyStrip user_input = [] ∨ 2000 < user_input.length) →
      AvatarPipeline.process caps user_input history
        = AvatarPipeline.process caps2 user_input history2) := by
  constructor
  · constructor
    · rintro ⟨msg, hp⟩
      by_contra hcon
      push_neg at hcon
      obtain ⟨hs, hl⟩ := hcon
      rw [AvatarPipeline.process_eq_of_valid hs (by omega)] at hp
      have h2 := congrArg Prod.snd hp
      dsimp only [] at h2
      obtain ⟨m, c, habs⟩ := AvatarPipeline.process_chunks_err_shape h2
      exact PyErr.noConfusion habs
    · intro hval
      rw [AvatarPipeline.process]
      rcases hval with hs | hl
      · rw [if_pos (Or.inr hs)]
        exact ⟨_, rfl⟩
      · by_cases hs : user_input = [] ∨ pyStrip user_input = []
        · rw [if_pos hs]
          exact ⟨_, rfl⟩
        · rw [if_neg hs, if_pos hl]
          exact ⟨_, rfl⟩
  · intro hval
    rw [AvatarPipeline.process, AvatarPipeline.process]
    rcases hval with hs | hl
    · rw [if_pos (Or.inr hs), if_pos (Or.inr hs)]
    · by_cases hs : user_input = [] ∨ pyStrip user_input = []
      · rw [if_pos hs, if_pos hs]
      · rw [if_neg hs, if_neg hs, if_pos hl, if_pos hl]

/-! ## Strip and lowercase interaction (for claim C10) -/

theorem dropWhile_head_false {p : Char → Bool} {l : List Char} {c : Char}
    {t : List Char} (h : l.dropWhile p = c :: t) : p c = false := by
  induction l with
  | nil => simp [List.dropWhile] at h
  | cons a as ih =>
    rw [List.dropWhile_cons] at h
    by_cases hp : p a = true
    · rw [if_pos hp] at h
      exact ih h
    · rw [if_neg hp] at h
      injection h with h1 h2
      subst h1
      exact Bool.eq_false_iff.mpr hp

theorem pyLStrip_idem (s : List Char) : pyLStrip (pyLStrip s) = pyLStrip s := by
  cases h : pyLStrip s with
  | nil => rfl
  | cons c t =>
    rw [pyLStrip] at h
    rw [pyLStrip, List.dropWhile_cons,
      if_neg (by simp [dropWhile_head_false h])]

theorem pyRStrip_idem (s : List Char) : pyRStrip (pyRStrip s) = pyRStrip s := by
  rw [pyRStrip, pyRStrip, List.reverse_reverse]
  have h := pyLStrip_idem s.reverse
  rw [pyLStrip, pyLStrip] at h
  rw [h]

theorem pyRStrip_isPrefix (s : List Char) : pyRStrip s <+: s := by
  rw [pyRStrip]
  have h : List.dropWhile Char.isWhitespace s.reverse <:+ s.reverse :=
    List.dropWhile_suffix _
  have h2 := List.reverse_prefix.mpr h
  rwa [List.reverse_reverse] at h2

theorem pyLStrip_pyRStrip_of_lstripped {y : List Char}
    (hy : pyLStrip y = y) : pyLStrip (pyRStrip y) = pyRStrip y := by
  cases hr : pyRStrip y with
  | nil => rfl
  | cons c t =>
    have hpre : pyRStrip y <+: y := pyRStrip_isPrefix y
    rw [hr] at hpre
    obtain ⟨u, hu⟩ := hpre
    have hc : c.isWhitespace = false := by
      rw [← hu, pyLStrip, List.cons_append, List.dropWhile_cons] at hy
      by_cases hw : c.isWhitespace = true
      · rw [if_pos hw] at hy
        have hlen := congrArg List.length hy
        have hle : (List.dropWhile Char.isWhitespace (t ++ u)).length
            ≤ (t ++ u).length := (List.dropWhile_sublist _).length_le
        rw [List.length_append] at hle
        simp at hlen
        omega
      · exact Bool.eq_false_iff.mpr hw
    rw [pyLStrip, List.dropWhile_cons, if_neg (by simp [hc])]

theorem pyStrip_idem (s : List Char) : pyStrip (pyStrip s) = pyStrip s := by
  rw [pyStrip, pyStrip,
    pyLStrip_pyRStrip_of_lstripped (pyLStrip_idem s), pyRStrip_idem]

theorem pyLStrip_pyLower (s : List Char) :
    pyLStrip (pyLower s) = pyLower (pyLStrip s) := by
  induction s with
  | nil => rfl
  | cons c t ih =>
    simp only [pyLower, List.map_cons, pyLStrip, List.dropWhile_cons,
      char_toLower_isWhitespace]
    by_cases h : c.isWhitespace = true
    · rw [if_pos h, if_pos h]
      simpa [pyLower, pyLStrip] using ih
    · rw [if_neg h, if_neg h, List.map_cons]

theorem pyRStrip_pyLower (s : List Char) :
    pyRStrip (pyLower s) = pyLower (pyRStrip s) := by
  have h := pyLStrip_pyLower s.reverse
  simp only [pyLower, pyLStrip, pyRStrip] at h ⊢
  rw [← List.map_reverse, h, List.map_reverse]

theorem pyStrip_pyLower (s : List Char) :
    pyStrip (pyLower s) = pyLower (pyStrip s) := by
  rw [pyStrip, pyStrip, pyLStrip_pyLower, pyRStrip_pyLower]

theorem pyStrip_pyLower_pyStrip (s : List Char) :
    pyStrip (pyLower (pyStrip s)) = pyLower (pyStrip s) := by
  rw [pyStrip_pyLower, pyStrip_idem]

namespace AvatarPipeline

theorem detect_emotion_loop_spec (results : List SentimentResult) :
    detect_emotion_loop results = "neutral".data ∨
      ∃ s ∈ sentimentStrings results,
        detect_emotion_loop results = pyLower (pyStrip s) := by
  induction results with
  | nil => exact Or.inl rfl
  | cons r rest ih =>
    cases r with
    | raises => exact Or.inl rfl
    | strResult s =>
      exact Or.inr ⟨s, List.mem_cons_self s _, rfl⟩
    | objResult label emotion =>
      cases hl : attrEmotion label with
      | some v =>
        have hve : ∃ val, label = some val ∧ v = pyLower (pyStrip val) := by
          cases label with
          | none => simp [attrEmotion] at hl
          | some val =>
            rw [attrEmotion] at hl
            split at hl
            case isTrue hcond =>
              injection hl with hl
              exact ⟨val, rfl, hl.symm⟩
            case isFalse => simp at hl
        obtain ⟨val, rfl, rfl⟩ := hve
        rw [detect_emotion_loop, hl]
        refine Or.inr ⟨val, ?_, rfl⟩
        rw [sentimentStrings]
        exact List.mem_append_left _ (List.mem_append_left _ (by simp))
      | none =>
        cases he2 : attrEmotion emotion with
        | some v =>
          have hve : ∃ val, emotion = some val ∧ v = pyLower (pyStrip val) := by
            cases emotion with
            | none => simp [attrEmotion] at he2
            | some val =>
              rw [attrEmotion] at he2
              split at he2
              case isTrue hcond =>
                injection he2 with he2
                exact ⟨val, rfl, he2.symm⟩
              case isFalse => simp at he2
          obtain ⟨val, rfl, rfl⟩ := hve
          rw [detect_emotion_loop, hl, he2]
          refine Or.inr ⟨val, ?_, rfl⟩
          rw [sentimentStrings]
          exact List.mem_append_left _ (List.mem_append_right _ (by simp))
        | none =>
          rw [detect_emotion_loop, hl, he2]
          rcases ih with h | ⟨s, hm, hs⟩
          · exact Or.inl h
          · refine Or.inr ⟨s, ?_, hs⟩
            rw [sentimentStrings]
            exact List.mem_append_right _ hm

end AvatarPipeline

/-! ## Claim C10: emotion label normalization -/

/-- C10 (implicit): every emotion label `_detect_emotion` produces — and
hence the emotion handed to the motion stage for each chunk — is either
the default `"neutral"` or the strip-then-lowercase of a string the
analyzer returned (a string result or a `label`/`emotion` attribute
value); consequently it carries no surrounding whitespace and no
uppercase basic-latin letter. -/
theorem C10_emotion_normalized (caps : AvatarPipeline.Capabilities)
    (text : List Char) :
    (AvatarPipeline.detect_emotion caps text = "neutral".data ∨
      ∃ s ∈ AvatarPipeline.sentimentStrings
          (caps.sentiment_methods.map (fun m => m text)),
        AvatarPipeline.detect_emotion caps text = pyLower (pyStrip s)) ∧
    pyStrip (AvatarPipeline.detect_emotion caps text)
      = AvatarPipeline.detect_emotion caps text ∧
    ∀ ch ∈ AvatarPipeline.detect_emotion caps text, ch.isUpper = false := by
  have hspec := AvatarPipeline.detect_emotion_loop_spec
    (caps.sentiment_methods.map (fun m => m text))
  have hde : AvatarPipeline.detect_emotion caps text
      = AvatarPipeline.detect_emotion_loop
          (caps.sentiment_methods.map (fun m => m text)) := rfl
  refine ⟨by rw [hde]; exact hspec, ?_, ?_⟩
  · rcases hspec with h | ⟨s, hm, hs⟩
    · rw [hde, h]
      decide
    · rw [hde, hs]
      exact pyStrip_pyLower_pyStrip s
  · rcases hspec with h | ⟨s, hm, hs⟩
    · rw [hde, h]
      decide
    · rw [hde, hs]
      intro ch hch
      obtain ⟨x, hx, rfl⟩ := List.mem_map.mp hch
      exact char_toLower_isUpper x

/-! ## Claim C4: the broadcast fan-out layer -/

namespace StreamingManager

theorem unsubscribe_observers [DecidableEq α] (m : StreamingManager α)
    (o : α) : (unsubscribe m o).observers = m.observers.erase o := by
  rw [unsubscribe]
  split
  case isTrue => rfl
  case isFalse h => exact (List.erase_of_not_mem h).symm

theorem broadcastLoop_trace [DecidableEq α] (raises : α → AvatarFrame → Bool)
    (frame : AvatarFrame) (l : List α) (m : StreamingManager α) :
    (broadcastLoop raises frame l m).2
      = l.map (fun o => (o, !(raises o frame))) := by
  induction l generalizing m with
  | nil => rfl
  | cons o rest ih =>
    by_cases h : raises o frame = true <;>
      simp [broadcastLoop, h, ih]

theorem broadcastLoop_observers [DecidableEq α]
    (raises : α → AvatarFrame → Bool) (frame : AvatarFrame) (l : List α) :
    ∀ m : StreamingManager α, m.observers.Nodup →
      (broadcastLoop raises frame l m).1.observers
        = m.observers.filter
            (fun x => !(decide (x ∈ l) && raises x frame)) := by
  induction l with
  | nil =>
    intro m hnd
    simp [broadcastLoop]
  | cons o rest ih =>
    intro m hnd
    rw [broadcastLoop]
    by_cases h : raises o frame = true
    · rw [if_pos h]
      dsimp only []
      have hnd2 : (unsubscribe m o).observers.Nodup := by
        rw [unsubscribe_observers]
        exact hnd.erase o
      rw [ih (unsubscribe m o) hnd2, unsubscribe_observers,
        hnd.erase_eq_filter o, List.filter_filter]
      refine List.filter_congr ?_
      intro x hx
      by_cases hxo : x = o
      · subst hxo
        simp [h]
      · simp [List.mem_cons, hxo]
    · rw [if_neg h]
      dsimp only []
      rw [ih m hnd]
      refine List.filter_congr ?_
      intro x hx
      by_cases hxo : x = o
      · subst hxo
        simp [Bool.eq_false_iff.mpr h]
      · simp [List.mem_cons, hxo]

end StreamingManager

/-- C4: `broadcast` invokes every observer in the snapshot of the
subscriber list taken at the start of the call, in order, each receiving
the frame exactly when its callback does not raise; raising observers are
unsubscribed while delivery continues (the model is a total function, so
no exception escapes); afterwards the live list — and hence
`get_observer_count` — retains exactly the non-raising observers. -/
theorem C4_broadcast_isolation {α : Type} [DecidableEq α]
    (m : StreamingManager α) (raises : α → AvatarFrame → Bool)
    (frame : AvatarFrame) (hnd : m.observers.Nodup) :
    ((StreamingManager.broadcast raises m frame).2
        = m.observers.map (fun o => (o, !(raises o frame)))) ∧
    ((StreamingManager.broadcast raises m frame).1.observers
        = m.observers.filter (fun o => !(raises o frame))) ∧
    StreamingManager.get_observer_count
        (StreamingManager.broadcast raises m frame).1
      = (m.observers.filter (fun o => !(raises o frame))).length := by
  rw [StreamingManager.broadcast]
  by_cases hemp : m.observers = []
  · rw [if_pos hemp]
    simp [hemp, StreamingManager.get_observer_count]
  · rw [if_neg hemp]
    have ht := StreamingManager.broadcastLoop_trace raises frame
      m.observers m
    have ho := StreamingManager.broadcastLoop_observers raises frame
      m.observers m hnd
    have hfix : m.observers.filter
          (fun x => !(decide (x ∈ m.observers) && raises x frame))
        = m.observers.filter (fun o => !(raises o frame)) := by
      refine List.filter_congr ?_
      intro x hx
      simp [hx]
    refine ⟨ht, by rw [ho, hfix], ?_⟩
    rw [StreamingManager.get_observer_count, ho, hfix]

/-- Witness for C4: three subscribed observers where the second raises on
every call — the first and third still receive the frame and the
observer count afterwards is 2. -/
theorem C4_broadcast_isolation_witness :
    ((StreamingManager.broadcast demoRaises ⟨[1, 2, 3]⟩ demoFrame).2
        = ([1, 2, 3] : List Nat).map
            (fun o => (o, !(demoRaises o demoFrame)))) ∧
    ((StreamingManager.broadcast demoRaises ⟨[1, 2, 3]⟩ demoFrame).1.observers
        = ([1, 2, 3] : List Nat).filter
            (fun o => !(demoRaises o demoFrame))) ∧
    StreamingManager.get_observer_count
        (StreamingManager.broadcast demoRaises ⟨[1, 2, 3]⟩ demoFrame).1
      = (([1, 2, 3] : List Nat).filter
          (fun o => !(demoRaises o demoFrame))).length :=
  C4_broadcast_isolation (⟨[1, 2, 3]⟩ : StreamingManager Nat) demoRaises
    demoFrame (by decide)
